import Mathlib

/-!
# Verification of the smsp portfolio updater (`make_portfolio.py`)

Shallow embedding of the core of the repository: the trade-instruction
normalizer `extract_inner_json` and the portfolio ledger updater
`update_portfolio`.  Python floats are modelled as exact rationals (`ℚ`);
`round(x, 2)` is modelled as rounding to an integer number of cents with
ties going to the even integer (Python's banker's rounding).  A pandas
DataFrame of holdings is modelled as a `List Row`; the pandas idiom
`df[df["Holding Name"] == s].index` followed by reads/writes at `idx[0]`
acts on the first row whose name is `s`, which is what the list helpers
below implement.
-/

/-- Round a rational to the nearest integer, ties to even
(Python's `round` on a number with fractional part exactly 1/2). -/
def roundHalfEven (q : ℚ) : ℤ :=
  let f := ⌊q⌋
  let r : ℚ := q - (f : ℚ)
  if r < 1/2 then f
  else if r = 1/2 then (if f % 2 = 0 then f else f + 1)
  else f + 1

/-- Python's `str.lower()` restricted to the ASCII range, which is all the
action strings carry. -/
def lower (s : String) : String := String.mk (s.data.map Char.toLower)

/-- Python's `round(q, 2)`: round to 2 decimal places. -/
def round2 (q : ℚ) : ℚ := (roundHalfEven (q * 100) : ℚ) / 100

/-- One row of the portfolio CSV: columns `Holding Name, Buying Price,
Current Price, Number of Units, Total Amount, Perct Change`. -/
structure Row where
  holdingName : String
  buyingPrice : ℚ
  currentPrice : ℚ
  units : ℚ
  totalAmount : ℚ
  pctChange : ℚ
deriving DecidableEq, Repr

/-- A canonical trade instruction `{symbol, action, shares, amount}`. -/
structure Trade where
  symbol : String
  action : String
  shares : ℚ
  amount : ℚ
deriving DecidableEq, Repr

/-- Update the first row whose `Holding Name` equals `sym` in place
(`df.at[idx[0], ...] = ...` on the first index of the boolean mask). -/
def updateRow (df : List Row) (sym : String) (f : Row → Row) : List Row :=
  match df with
  | [] => []
  | r :: rs => if r.holdingName = sym then f r :: rs else r :: updateRow rs sym f

/-- Drop the first row whose `Holding Name` equals `sym`
(`df.drop(idx[0])`). -/
def removeFirst (df : List Row) (sym : String) : List Row :=
  match df with
  | [] => []
  | r :: rs => if r.holdingName = sym then rs else r :: removeFirst rs sym

/-- Lines 84-89 of `make_portfolio.py`: read the first row whose
`Holding Name` is exactly `"Cash"`; if none exists the cash balance is
`0.0` and the frame is untouched, otherwise the balance is that row's
`Total Amount` and every `"Cash"` row is dropped from the working set. -/
def extractCash (df : List Row) : ℚ × List Row :=
  match df.find? (fun r => r.holdingName == "Cash") with
  | none => (0, df)
  | some r => (r.totalAmount, df.filter (fun x => x.holdingName != "Cash"))

/-- One iteration of the trade loop (lines 92-143 of `make_portfolio.py`),
acting on the running state `(cash, df)`.  The buy branch on an existing
row evaluates `(old_cost + new_cost) / new_units`; a zero denominator is
the division-by-zero hazard flagged in the source's accounting and is
modelled as an error. -/
def applyTrade (st : ℚ × List Row) (t : Trade) : Except String (ℚ × List Row) :=
  let cash := st.1
  let df := st.2
  let action := lower t.action
  let shares := t.shares
  let amount := round2 t.amount
  let price := if 0 < shares then round2 (amount / shares) else 0
  if action = "remove" then
    .ok (cash, df)
  else if action = "sell" then
    let cash := cash + amount
    match df.find? (fun r => r.holdingName == t.symbol) with
    | none => .ok (cash, df)
    | some r =>
      let newUnits := r.units - shares
      if 0 < newUnits then
        .ok (cash, updateRow df t.symbol (fun s =>
          { s with units := newUnits, currentPrice := price,
                   totalAmount := round2 (price * newUnits),
                   pctChange := round2 ((price - s.buyingPrice) / s.buyingPrice * 100) }))
      else
        .ok (cash, removeFirst df t.symbol)
  else if action = "buy" then
    let cash := cash - amount
    match df.find? (fun r => r.holdingName == t.symbol) with
    | some r =>
      let oldCost := round2 (r.buyingPrice * r.units)
      let newUnits := r.units + shares
      if newUnits = 0 then
        .error "ZeroDivisionError"
      else
        let newBuy := round2 ((oldCost + amount) / newUnits)
        .ok (cash, updateRow df t.symbol (fun s =>
          { s with buyingPrice := newBuy, currentPrice := price, units := newUnits,
                   totalAmount := round2 (price * newUnits),
                   pctChange := round2 ((price - newBuy) / newBuy * 100) }))
    | none =>
      .ok (cash, df ++ [{ holdingName := t.symbol, buyingPrice := price,
                          currentPrice := price, units := shares,
                          totalAmount := amount, pctChange := 0 }])
  else
    .ok (cash, df)

/-- The synthetic Cash row appended at lines 147-154. -/
def cashRow (c : ℚ) : Row :=
  { holdingName := "Cash", buyingPrice := c, currentPrice := c, units := 1,
    totalAmount := c, pctChange := 0 }

/-- The final rounding pass (lines 158-159): the four currency-bearing
columns are rounded to 2 decimals; `Number of Units` is not touched. -/
def roundRowCols (r : Row) : Row :=
  { r with buyingPrice := round2 r.buyingPrice, currentPrice := round2 r.currentPrice,
           totalAmount := round2 r.totalAmount, pctChange := round2 r.pctChange }

/-- The `for trade in trades:` loop: apply the trades in list order,
propagating the first error. -/
def applyTrades (st : ℚ × List Row) : List Trade → Except String (ℚ × List Row)
  | [] => .ok st
  | t :: ts =>
    match applyTrade st t with
    | .error e => .error e
    | .ok st' => applyTrades st' ts

/-- Lines 80-159 of `make_portfolio.py`: the portfolio ledger updater as a
function from the parsed prior snapshot and the canonical trade list to
the next snapshot. -/
def update_portfolio (df0 : List Row) (trades : List Trade) : Except String (List Row) :=
  match applyTrades (extractCash df0) trades with
  | .error e => .error e
  | .ok st => .ok ((st.2 ++ [cashRow (round2 st.1)]).map roundRowCols)

/-! ## The trade-instruction normalizer (`extract_inner_json`, lines 7-32) -/

/-- Drop everything up to and including the first occurrence of `pat`;
`none` when `pat` does not occur. -/
def afterFirst (pat : List Char) : List Char → Option (List Char)
  | [] => none
  | c :: cs =>
    if pat.isPrefixOf (c :: cs) then some ((c :: cs).drop pat.length)
    else afterFirst pat cs

/-- The segment strictly before the first occurrence of `pat`;
`none` when `pat` does not occur. -/
def upToFirst (pat : List Char) : List Char → Option (List Char)
  | [] => none
  | c :: cs =>
    if pat.isPrefixOf (c :: cs) then some []
    else (upToFirst pat cs).map (fun l => c :: l)

/-- Python's `str.strip()`: drop leading and trailing whitespace. -/
def pyStrip (s : String) : String :=
  String.mk (((s.data.dropWhile Char.isWhitespace).reverse.dropWhile Char.isWhitespace).reverse)

/-- The fenced-extraction regex of lines 16 and 24,
`re.search("\x60\x60\x60json(.*?)\x60\x60\x60", s, re.DOTALL)` followed by
`.strip()` of the captured group: the text strictly between the first
occurrence of the opening marker and the next closing marker. -/
def fenceBody (s : String) : Option String :=
  match afterFirst "```json".data s.data with
  | none => none
  | some rest =>
    match upToFirst "```".data rest with
    | none => none
    | some body => some (pyStrip (String.mk body))

/-- The response payload consumed by `extract_inner_json`:
`choicesContent = some c` models a payload whose
`choices[0].message.content` is the string `c` (the `"choices" in data`
test together with the `.get("content")` read), `none` models a payload
with no `choices` field; `text` models the optional top-level `text`
field.  Python's truthiness test on the content is `c ≠ ""`. -/
structure Payload where
  choicesContent : Option String
  text : Option String

/-- The `elif "text" in data` branch (lines 22-29) and the final `else`
(line 32): fenced extraction is tried first, then the raw text is parsed;
a missing `text` field is the unrecognized-structure error.  `loads` is
`json.loads`, returning `none` where Python raises `JSONDecodeError`. -/
def extractFromText {α : Type} (loads : String → Option α) (ot : Option String) :
    Except String α :=
  match ot with
  | some t =>
    (match fenceBody t with
     | some inner =>
       match loads inner with
       | some v => .ok v
       | none => .error "JSONDecodeError"
     | none =>
       match loads t with
       | some v => .ok v
       | none => .error "JSONDecodeError")
  | none => .error "Unrecognized JSON structure (neither OpenAI nor Gemini)."

/-- Lines 7-32 of `make_portfolio.py`: the OpenAI `choices[0].message.content`
shape is tried first (raw parse, then fenced extraction, else the parse
error propagates); only when the `choices` content is absent or falsy is
the Gemini `text` shape tried. -/
def extract_inner_json {α : Type} (loads : String → Option α) (p : Payload) :
    Except String α :=
  match p.choicesContent with
  | some c =>
    if c = "" then extractFromText loads p.text
    else
      match loads c with
      | some v => .ok v
      | none =>
        match fenceBody c with
        | some inner =>
          match loads inner with
          | some v => .ok v
          | none => .error "JSONDecodeError"
        | none => .error "JSONDecodeError"
  | none => extractFromText loads p.text

/-! ## Spec-side formulas (for comparison with the code) -/

/-- Modelled from the spec: the buy-update formulas of §4.2 applied to an
existing row `r` — `old_cost = round(old_buying_price * old_units, 2)`,
`new_units = old_units + shares`,
`new_buying_price = round((old_cost + amount) / new_units, 2)`, price as
`round(amount / shares, 2)` when `shares > 0` else `0.0`, and the derived
`total_amount` and `pct_change` columns. -/
def specBuyRow (r : Row) (t : Trade) : Row :=
  let amount := round2 t.amount
  let price := if 0 < t.shares then round2 (amount / t.shares) else 0
  let newUnits := r.units + t.shares
  let newBuy := round2 ((round2 (r.buyingPrice * r.units) + amount) / newUnits)
  { holdingName := r.holdingName, buyingPrice := newBuy, currentPrice := price,
    units := newUnits, totalAmount := round2 (price * newUnits),
    pctChange := round2 ((price - newBuy) / newBuy * 100) }

/-- Modelled from the spec: the in-place sell-update formulas of §4.2
applied to an existing row `r` when `new_units = units - shares > 0`. -/
def specSellRow (r : Row) (t : Trade) : Row :=
  let amount := round2 t.amount
  let price := if 0 < t.shares then round2 (amount / t.shares) else 0
  let newUnits := r.units - t.shares
  { holdingName := r.holdingName, buyingPrice := r.buyingPrice, currentPrice := price,
    units := newUnits, totalAmount := round2 (price * newUnits),
    pctChange := round2 ((price - r.buyingPrice) / r.buyingPrice * 100) }

/-- Sum of the (2-decimal-rounded) amounts of the buy trades of a list. -/
def sumBuy : List Trade → ℚ
  | [] => 0
  | t :: ts => (if lower t.action = "buy" then round2 t.amount else 0) + sumBuy ts

/-- Sum of the (2-decimal-rounded) amounts of the sell trades of a list. -/
def sumSell : List Trade → ℚ
  | [] => 0
  | t :: ts => (if lower t.action = "sell" then round2 t.amount else 0) + sumSell ts

/-! ## Evaluation lemmas for `roundHalfEven` and `round2` -/

theorem roundHalfEven_eq_of (x : ℚ) (z : ℤ) (h1 : (z : ℚ) - 1/2 < x)
    (h2 : x < (z : ℚ) + 1/2) : roundHalfEven x = z := by
  unfold roundHalfEven
  rcases le_or_lt (z : ℚ) x with hz | hz
  · have hf : ⌊x⌋ = z := Int.floor_eq_iff.mpr ⟨hz, by linarith⟩
    simp only [hf]
    rw [if_pos (by linarith)]
  · have hf : ⌊x⌋ = z - 1 := Int.floor_eq_iff.mpr ⟨by push_cast; linarith, by push_cast; linarith⟩
    simp only [hf]
    rw [if_neg (by push_cast; linarith), if_neg (by push_cast; linarith)]
    omega

theorem roundHalfEven_intCast (n : ℤ) : roundHalfEven (n : ℚ) = n :=
  roundHalfEven_eq_of _ n (by norm_num) (by norm_num)

/-- `round2` is the identity on any value that is a whole number of cents. -/
theorem round2_eq_self (q : ℚ) (n : ℤ) (h : q * 100 = (n : ℚ)) : round2 q = q := by
  have hq : q = (n : ℚ) / 100 := by
    field_simp
    linarith [h]
  unfold round2
  rw [h, roundHalfEven_intCast, hq]

/-- Interval characterization of `round2` away from ties. -/
theorem round2_eq_of (q : ℚ) (z : ℤ) (h1 : (z : ℚ) - 1/2 < q * 100)
    (h2 : q * 100 < (z : ℚ) + 1/2) : round2 q = (z : ℚ) / 100 := by
  unfold round2
  rw [roundHalfEven_eq_of _ z h1 h2]

theorem round2_zero : round2 0 = 0 :=
  round2_eq_self 0 0 (by norm_num)

theorem round2_round2 (q : ℚ) : round2 (round2 q) = round2 q :=
  round2_eq_self _ (roundHalfEven (q * 100)) (by unfold round2; field_simp)

theorem round2_cents (q : ℚ) : ∃ n : ℤ, round2 q * 100 = (n : ℚ) :=
  ⟨roundHalfEven (q * 100), by unfold round2; field_simp⟩

theorem roundRowCols_cashRow (c : ℚ) : roundRowCols (cashRow c) = cashRow (round2 c) := by
  simp [roundRowCols, cashRow, round2_round2, round2_zero]

/-! ## Structural lemmas about the list helpers -/

theorem mem_updateRow {df : List Row} {sym : String} {f : Row → Row} {x : Row}
    (hx : x ∈ updateRow df sym f) : x ∈ df ∨ ∃ y ∈ df, x = f y := by
  induction df with
  | nil => simp [updateRow] at hx
  | cons a l ih =>
    simp only [updateRow] at hx
    by_cases ha : a.holdingName = sym
    · rw [if_pos ha] at hx
      rcases List.mem_cons.mp hx with h | h
      · exact .inr ⟨a, List.mem_cons_self a l, h⟩
      · exact .inl (List.mem_cons_of_mem _ h)
    · rw [if_neg ha] at hx
      rcases List.mem_cons.mp hx with h | h
      · exact .inl (by simp [h])
      · rcases ih h with h' | ⟨y, hy, hxy⟩
        · exact .inl (List.mem_cons_of_mem _ h')
        · exact .inr ⟨y, List.mem_cons_of_mem _ hy, hxy⟩

theorem mem_removeFirst {df : List Row} {sym : String} {x : Row}
    (hx : x ∈ removeFirst df sym) : x ∈ df := by
  induction df with
  | nil => simp [removeFirst] at hx
  | cons a l ih =>
    simp only [removeFirst] at hx
    by_cases ha : a.holdingName = sym
    · rw [if_pos ha] at hx
      exact List.mem_cons_of_mem _ hx
    · rw [if_neg ha] at hx
      rcases List.mem_cons.mp hx with h | h
      · exact by simp [h]
      · exact List.mem_cons_of_mem _ (ih h)

/-- `updateRow` only ever applies its update function to the first matching
row, which is the row `find?` returns. -/
theorem updateRow_congr {df : List Row} {sym : String} (f g : Row → Row) {r : Row}
    (hf : df.find? (fun x => x.holdingName == sym) = some r) (hfg : f r = g r) :
    updateRow df sym f = updateRow df sym g := by
  induction df with
  | nil => simp at hf
  | cons a l ih =>
    by_cases ha : a.holdingName = sym
    · have : r = a := by
        rw [List.find?_cons_of_pos _ (by simp [ha])] at hf
        exact (Option.some.inj hf).symm
      subst this
      simp [updateRow, ha, hfg]
    · rw [List.find?_cons_of_neg _ (by simp [ha])] at hf
      simp [updateRow, ha, ih hf]

/-! ## Case lemmas for `applyTrade` -/

theorem applyTrade_remove (st : ℚ × List Row) (t : Trade) (h : lower t.action = "remove") :
    applyTrade st t = .ok st := by
  simp [applyTrade, h]

theorem applyTrade_other (st : ℚ × List Row) (t : Trade) (h1 : lower t.action ≠ "remove")
    (h2 : lower t.action ≠ "sell") (h3 : lower t.action ≠ "buy") :
    applyTrade st t = .ok st := by
  simp [applyTrade, h1, h2, h3]

theorem applyTrade_sell (c : ℚ) (d : List Row) (t : Trade) (h : lower t.action = "sell") :
    applyTrade (c, d) t =
      match d.find? (fun r => r.holdingName == t.symbol) with
      | none => .ok (c + round2 t.amount, d)
      | some r =>
        if 0 < r.units - t.shares then
          .ok (c + round2 t.amount, updateRow d t.symbol (fun s =>
            { s with units := r.units - t.shares,
                     currentPrice := (if 0 < t.shares then round2 (round2 t.amount / t.shares) else 0),
                     totalAmount := round2 ((if 0 < t.shares then round2 (round2 t.amount / t.shares) else 0) * (r.units - t.shares)),
                     pctChange := round2 (((if 0 < t.shares then round2 (round2 t.amount / t.shares) else 0) - s.buyingPrice) / s.buyingPrice * 100) }))
        else
          .ok (c + round2 t.amount, removeFirst d t.symbol) := by
  simp [applyTrade, h]

theorem applyTrade_buy (c : ℚ) (d : List Row) (t : Trade) (h : lower t.action = "buy") :
    applyTrade (c, d) t =
      match d.find? (fun r => r.holdingName == t.symbol) with
      | some r =>
        if r.units + t.shares = 0 then .error "ZeroDivisionError"
        else
          .ok (c - round2 t.amount, updateRow d t.symbol (fun s =>
            { s with buyingPrice := round2 ((round2 (r.buyingPrice * r.units) + round2 t.amount) / (r.units + t.shares)),
                     currentPrice := (if 0 < t.shares then round2 (round2 t.amount / t.shares) else 0),
                     units := r.units + t.shares,
                     totalAmount := round2 ((if 0 < t.shares then round2 (round2 t.amount / t.shares) else 0) * (r.units + t.shares)),
                     pctChange := round2 (((if 0 < t.shares then round2 (round2 t.amount / t.shares) else 0) - round2 ((round2 (r.buyingPrice * r.units) + round2 t.amount) / (r.units + t.shares))) / round2 ((round2 (r.buyingPrice * r.units) + round2 t.amount) / (r.units + t.shares)) * 100) }))
      | none =>
        .ok (c - round2 t.amount,
          d ++ [{ holdingName := t.symbol,
                  buyingPrice := (if 0 < t.shares then round2 (round2 t.amount / t.shares) else 0),
                  currentPrice := (if 0 < t.shares then round2 (round2 t.amount / t.shares) else 0),
                  units := t.shares, totalAmount := round2 t.amount, pctChange := 0 }]) := by
  simp [applyTrade, h]

/-- Cash evolves only through the sell credit and the buy debit. -/
theorem applyTrade_cash (c : ℚ) (d : List Row) (t : Trade) (c' : ℚ) (d' : List Row)
    (h : applyTrade (c, d) t = .ok (c', d')) :
    c' = c + (if lower t.action = "sell" then round2 t.amount else 0)
           - (if lower t.action = "buy" then round2 t.amount else 0) := by
  by_cases hr : lower t.action = "remove"
  · rw [applyTrade_remove _ _ hr] at h
    simp only [Except.ok.injEq, Prod.mk.injEq] at h
    simp [hr, h.1]
  · by_cases hs : lower t.action = "sell"
    · rw [applyTrade_sell _ _ _ hs] at h
      split at h <;> [skip; split at h] <;>
        · simp only [Except.ok.injEq, Prod.mk.injEq] at h
          simp [hs, h.1.symm]
    · by_cases hb : lower t.action = "buy"
      · rw [applyTrade_buy _ _ _ hb] at h
        split at h
        · split at h
          · exact absurd h (by simp)
          · simp only [Except.ok.injEq, Prod.mk.injEq] at h
            simp [hs, hb, h.1.symm]
        · simp only [Except.ok.injEq, Prod.mk.injEq] at h
          simp [hs, hb, h.1.symm]
      · rw [applyTrade_other _ _ hr hs hb] at h
        simp only [Except.ok.injEq, Prod.mk.injEq] at h
        simp [hs, hb, h.1]

theorem applyTrades_append (l1 l2 : List Trade) (st : ℚ × List Row) :
    applyTrades st (l1 ++ l2) =
      match applyTrades st l1 with
      | .error e => .error e
      | .ok st' => applyTrades st' l2 := by
  induction l1 generalizing st with
  | nil => simp [applyTrades]
  | cons t ts ih =>
    simp only [List.cons_append, applyTrades]
    cases applyTrade st t with
    | error e => rfl
    | ok st' => exact ih st'

/-- Net cash over a trade list: initial plus sells minus buys. -/
theorem applyTrades_cash (ts : List Trade) : ∀ (c : ℚ) (d : List Row) (c' : ℚ) (d' : List Row),
    applyTrades (c, d) ts = .ok (c', d') → c' = c + sumSell ts - sumBuy ts := by
  induction ts with
  | nil =>
    intro c d c' d' h
    simp only [applyTrades, Except.ok.injEq, Prod.mk.injEq] at h
    simp [sumSell, sumBuy, h.1]
  | cons t ts ih =>
    intro c d c' d' h
    simp only [applyTrades] at h
    split at h
    · exact absurd h (by simp)
    · rename_i st' heq
      obtain ⟨c1, d1⟩ := st'
      have h1 := applyTrade_cash c d t c1 d1 heq
      have h2 := ih c1 d1 c' d' h
      simp only [sumSell, sumBuy]
      rw [h2, h1]
      ring

theorem sumBuy_cents (ts : List Trade) : ∃ n : ℤ, sumBuy ts * 100 = (n : ℚ) := by
  induction ts with
  | nil => exact ⟨0, by simp [sumBuy]⟩
  | cons t ts ih =>
    obtain ⟨n, hn⟩ := ih
    by_cases hb : lower t.action = "buy"
    · obtain ⟨m, hm⟩ := round2_cents t.amount
      refine ⟨m + n, ?_⟩
      simp only [sumBuy, if_pos hb]
      rw [add_mul, hm, hn]
      push_cast
      ring
    · exact ⟨n, by simp only [sumBuy, if_neg hb]; rw [zero_add]; exact hn⟩

theorem sumSell_cents (ts : List Trade) : ∃ n : ℤ, sumSell ts * 100 = (n : ℚ) := by
  induction ts with
  | nil => exact ⟨0, by simp [sumSell]⟩
  | cons t ts ih =>
    obtain ⟨n, hn⟩ := ih
    by_cases hs : lower t.action = "sell"
    · obtain ⟨m, hm⟩ := round2_cents t.amount
      refine ⟨m + n, ?_⟩
      simp only [sumSell, if_pos hs]
      rw [add_mul, hm, hn]
      push_cast
      ring
    · exact ⟨n, by simp only [sumSell, if_neg hs]; rw [zero_add]; exact hn⟩

/-- One trade preserves strict positivity of unit counts, provided a buy
carries strictly positive shares. -/
theorem applyTrade_units_pos (c : ℚ) (d : List Row) (t : Trade) (c' : ℚ) (d' : List Row)
    (hpos : ∀ r ∈ d, 0 < r.units) (hb : lower t.action = "buy" → 0 < t.shares)
    (h : applyTrade (c, d) t = .ok (c', d')) : ∀ r ∈ d', 0 < r.units := by
  by_cases hr : lower t.action = "remove"
  · rw [applyTrade_remove _ _ hr] at h
    simp only [Except.ok.injEq, Prod.mk.injEq] at h
    exact h.2 ▸ hpos
  · by_cases hs : lower t.action = "sell"
    · rw [applyTrade_sell _ _ _ hs] at h
      split at h
      · simp only [Except.ok.injEq, Prod.mk.injEq] at h
        exact h.2 ▸ hpos
      · rename_i r heq
        split at h
        · rename_i hgt
          simp only [Except.ok.injEq, Prod.mk.injEq] at h
          intro x hx
          rw [← h.2] at hx
          rcases mem_updateRow hx with hmem | ⟨y, _, rfl⟩
          · exact hpos x hmem
          · exact hgt
        · simp only [Except.ok.injEq, Prod.mk.injEq] at h
          intro x hx
          rw [← h.2] at hx
          exact hpos x (mem_removeFirst hx)
    · by_cases hby : lower t.action = "buy"
      · rw [applyTrade_buy _ _ _ hby] at h
        split at h
        · rename_i r heq
          split at h
          · exact absurd h (by simp)
          · simp only [Except.ok.injEq, Prod.mk.injEq] at h
            intro x hx
            rw [← h.2] at hx
            rcases mem_updateRow hx with hmem | ⟨y, _, rfl⟩
            · exact hpos x hmem
            · have hru : 0 < r.units := hpos r (List.mem_of_find?_eq_some heq)
              have := hb hby
              simpa using add_pos hru this
        · simp only [Except.ok.injEq, Prod.mk.injEq] at h
          intro x hx
          rw [← h.2] at hx
          rcases List.mem_append.mp hx with hmem | hmem
          · exact hpos x hmem
          · simp only [List.mem_singleton] at hmem
            subst hmem
            simpa using hb hby
      · rw [applyTrade_other _ _ hr hs hby] at h
        simp only [Except.ok.injEq, Prod.mk.injEq] at h
        exact h.2 ▸ hpos

theorem applyTrades_units_pos (ts : List Trade) : ∀ (c : ℚ) (d : List Row) (c' : ℚ) (d' : List Row),
    (∀ r ∈ d, 0 < r.units) → (∀ t ∈ ts, lower t.action = "buy" → 0 < t.shares) →
    applyTrades (c, d) ts = .ok (c', d') → ∀ r ∈ d', 0 < r.units := by
  induction ts with
  | nil =>
    intro c d c' d' hpos _ h
    simp only [applyTrades, Except.ok.injEq, Prod.mk.injEq] at h
    exact h.2 ▸ hpos
  | cons t ts ih =>
    intro c d c' d' hpos hts h
    simp only [applyTrades] at h
    split at h
    · exact absurd h (by simp)
    · rename_i st' heq
      obtain ⟨c1, d1⟩ := st'
      have h1 := applyTrade_units_pos c d t c1 d1 hpos
        (hts t (List.mem_cons_self t ts)) heq
      exact ih c1 d1 c' d' h1 (fun x hx => hts x (List.mem_cons_of_mem _ hx)) h

theorem extractCash_snd (df : List Row) :
    (extractCash df).2 = df.filter (fun r => r.holdingName != "Cash") := by
  unfold extractCash
  split
  · rename_i hnone
    refine (List.filter_eq_self.mpr ?_).symm
    intro a ha
    have := List.find?_eq_none.mp hnone a ha
    simpa using this
  · rfl

theorem extractCash_fst_none (df : List Row)
    (h : df.find? (fun r => r.holdingName == "Cash") = none) : (extractCash df).1 = 0 := by
  unfold extractCash
  rw [h]

theorem extractCash_fst_some (df : List Row) (r : Row)
    (h : df.find? (fun x => x.holdingName == "Cash") = some r) :
    (extractCash df).1 = r.totalAmount := by
  unfold extractCash
  rw [h]

/-- With no trades the updater just rebuilds the snapshot: non-Cash rows
in order with currency columns rounded, then the Cash row. -/
theorem update_portfolio_nil (df : List Row) :
    update_portfolio df [] =
      .ok ((df.filter (fun r => r.holdingName != "Cash")).map roundRowCols ++
           [cashRow (round2 (extractCash df).1)]) := by
  unfold update_portfolio
  simp only [applyTrades]
  rw [List.map_append, extractCash_snd]
  simp [roundRowCols_cashRow, round2_round2]

theorem buy_trade_eval :
    applyTrade (0, []) ⟨"X", "buy", 1, 100⟩ = .ok (-100, [⟨"X", 100, 100, 1, 100, 0⟩]) := by
  have h100 : round2 (100 : ℚ) = 100 := round2_eq_self 100 10000 (by norm_num)
  have hbuy : lower "buy" = "buy" := by decide
  rw [applyTrade_buy _ _ _ hbuy]
  norm_num [h100]

theorem buy_example_eval :
    update_portfolio [] [⟨"X", "buy", 1, 100⟩] =
      .ok [⟨"X", 100, 100, 1, 100, 0⟩, cashRow (-100)] := by
  have h100 : round2 (100 : ℚ) = 100 := round2_eq_self 100 10000 (by norm_num)
  have hm100 : round2 (-100 : ℚ) = -100 := round2_eq_self (-100) (-10000) (by norm_num)
  have hec : extractCash [] = (0, []) := by simp [extractCash]
  unfold update_portfolio
  rw [hec]
  simp only [applyTrades, buy_trade_eval]
  simp [roundRowCols, cashRow, h100, hm100, round2_zero]

/-! ## Claim theorems -/

/-- C9: applying an empty trade list reproduces the input snapshot
modulo re-creation of the Cash row (always present, last, with
`units = 1`, `buying_price = current_price = total_amount = cash`,
`pct_change = 0`) and rounding of the currency-bearing columns to
2 decimals. -/
theorem claim_C9_empty_roundtrip (df : List Row) :
    update_portfolio df [] =
      .ok ((df.filter (fun r => r.holdingName != "Cash")).map roundRowCols ++
           [cashRow (round2 (extractCash df).1)]) :=
  update_portfolio_nil df

/-- C6 (counterexample): a prior snapshot whose only row has Holding Name
`"cash"` is NOT recognized as the Cash row — the balance seeds `0.0`, not
`50`, and the `"cash"` row stays in the working set of holdings, refuting
the claimed case-insensitive match. -/
theorem claim_C6_counterexample :
    update_portfolio [⟨"cash", 50, 50, 1, 50, 0⟩] [] =
      .ok [⟨"cash", 50, 50, 1, 50, 0⟩, cashRow 0] ∧ (0 : ℚ) ≠ 50 := by
  constructor
  · have h0 : round2 (0 : ℚ) = 0 := round2_zero
    have h50 : round2 (50 : ℚ) = 50 := round2_eq_self 50 5000 (by norm_num)
    rw [update_portfolio_nil]
    simp [extractCash, roundRowCols, h0, h50]
  · norm_num

/-- C6 (amended): the Cash row that seeds the cash balance is identified
by an exact, case-sensitive match on `"Cash"`; its Total Amount seeds the
balance and all `"Cash"` rows leave the working set; with no `"Cash"` row
the balance defaults to `0.0` and every row is kept as a holding. -/
theorem claim_C6_cash_row_exact_match (df : List Row) :
    (df.find? (fun r => r.holdingName == "Cash") = none →
      update_portfolio df [] = .ok (df.map roundRowCols ++ [cashRow 0])) ∧
    (∀ r, df.find? (fun x => x.holdingName == "Cash") = some r →
      update_portfolio df [] =
        .ok ((df.filter (fun x => x.holdingName != "Cash")).map roundRowCols ++
             [cashRow (round2 r.totalAmount)])) := by
  constructor
  · intro h
    rw [update_portfolio_nil, extractCash_fst_none df h, round2_zero]
    have hfilter : df.filter (fun r => r.holdingName != "Cash") = df := by
      refine List.filter_eq_self.mpr ?_
      intro a ha
      have := List.find?_eq_none.mp h a ha
      simpa using this
    rw [hfilter]
  · intro r h
    rw [update_portfolio_nil, extractCash_fst_some df r h]

/-- C6 (witness): the amended theorem applied to a one-row snapshot with
no `"Cash"` row. -/
theorem claim_C6_witness :
    update_portfolio [⟨"AAPL", 10, 10, 1, 10, 0⟩] [] =
      .ok ([(⟨"AAPL", 10, 10, 1, 10, 0⟩ : Row)].map roundRowCols ++ [cashRow 0]) :=
  (claim_C6_cash_row_exact_match [⟨"AAPL", 10, 10, 1, 10, 0⟩]).1 (by simp)

/-- C1 (counterexample): a `remove` trade whose symbol exactly matches the
sole non-Cash row does NOT delete that row — the output still carries the
`"AAPL"` row, refuting the claimed deletion. -/
theorem claim_C1_counterexample :
    update_portfolio [⟨"AAPL", 10, 10, 1, 10, 0⟩] [⟨"AAPL", "remove", 0, 0⟩] =
      .ok [⟨"AAPL", 10, 10, 1, 10, 0⟩, cashRow 0] ∧
    ([(⟨"AAPL", 10, 10, 1, 10, 0⟩ : Row), cashRow 0].any
      (fun r => r.holdingName == "AAPL")) = true := by
  constructor
  · have hrm : lower "remove" = "remove" := by decide
    have h10 : round2 (10 : ℚ) = 10 := round2_eq_self 10 1000 (by norm_num)
    simp [update_portfolio, applyTrades, applyTrade, extractCash, cashRow, roundRowCols,
      hrm, h10, round2_zero]
  · decide

/-- C1 (amended): a `remove` trade is skipped entirely (`continue`): no row
is deleted whether or not the symbol matches, the cash balance is
untouched, and no error is raised — the output equals that of the same
trade list without the remove instruction. -/
theorem claim_C1_remove_is_noop (df : List Row) (t : Trade) (ts1 ts2 : List Trade)
    (h : lower t.action = "remove") :
    update_portfolio df (ts1 ++ t :: ts2) = update_portfolio df (ts1 ++ ts2) := by
  have hstep : ∀ st : ℚ × List Row, applyTrades st (t :: ts2) = applyTrades st ts2 := by
    intro st
    simp only [applyTrades]
    rw [applyTrade_remove st t h]
  unfold update_portfolio
  rw [applyTrades_append, applyTrades_append]
  cases applyTrades (extractCash df) ts1 with
  | error e => rfl
  | ok st => simp only [hstep]

/-- C1 (witness): the amended theorem at a concrete snapshot and a
matching remove trade. -/
theorem claim_C1_witness :
    lower "remove" = "remove" ∧
    update_portfolio [⟨"AAPL", 10, 10, 1, 10, 0⟩] ([] ++ ⟨"AAPL", "remove", 0, 0⟩ :: []) =
      update_portfolio [⟨"AAPL", 10, 10, 1, 10, 0⟩] ([] ++ []) :=
  ⟨by decide, claim_C1_remove_is_noop [⟨"AAPL", 10, 10, 1, 10, 0⟩]
    ⟨"AAPL", "remove", 0, 0⟩ [] [] (by decide)⟩

/-- C3: a buy on an existing row with `old_units + shares > 0` updates the
row exactly by the spec's weighted-average formulas (`specBuyRow`) and
debits cash by the rounded amount. -/
theorem claim_C3_weighted_average_buy (c : ℚ) (df : List Row) (t : Trade) (r : Row)
    (hb : lower t.action = "buy")
    (hf : df.find? (fun x => x.holdingName == t.symbol) = some r)
    (hpos : 0 < r.units + t.shares) :
    applyTrade (c, df) t =
      .ok (c - round2 t.amount, updateRow df t.symbol (fun _ => specBuyRow r t)) := by
  rw [applyTrade_buy c df t hb]
  simp only [hf]
  rw [if_neg (ne_of_gt hpos)]
  congr 2
  exact updateRow_congr _ _ hf (by simp [specBuyRow])

/-- C3 (witness): 10 units at average cost 10, then a buy of 10 more for
120 total, yields buying price `round((100+120)/20, 2) = 11.00`, current
price 12, 20 units, total 240, pct change 9.09. -/
theorem claim_C3_witness :
    applyTrade (0, [⟨"ARM", 10, 10, 10, 100, 0⟩]) ⟨"ARM", "buy", 10, 120⟩ =
      .ok (-120, [⟨"ARM", 11, 12, 20, 240, 909/100⟩]) := by
  have h := claim_C3_weighted_average_buy 0 [⟨"ARM", 10, 10, 10, 100, 0⟩]
    ⟨"ARM", "buy", 10, 120⟩ ⟨"ARM", 10, 10, 10, 100, 0⟩ (by decide) (by simp) (by norm_num)
  rw [h]
  have h120 : round2 (120 : ℚ) = 120 := round2_eq_self 120 12000 (by norm_num)
  have h12 : round2 (12 : ℚ) = 12 := round2_eq_self 12 1200 (by norm_num)
  have h100 : round2 (100 : ℚ) = 100 := round2_eq_self 100 10000 (by norm_num)
  have h11 : round2 (11 : ℚ) = 11 := round2_eq_self 11 1100 (by norm_num)
  have h240 : round2 (240 : ℚ) = 240 := round2_eq_self 240 24000 (by norm_num)
  have hpct : round2 ((100 : ℚ) / 11) = 909 / 100 :=
    round2_eq_of _ 909 (by norm_num) (by norm_num)
  norm_num [updateRow, specBuyRow, h120, h12, h100, h11, h240, hpct]

/-- C2: with no remove trades (and a 2-decimal initial balance, as every
snapshot the program writes has), the final cash balance — the Cash row
appended last to the output — equals the initial balance minus the sum of
rounded buy amounts plus the sum of rounded sell amounts, exactly. -/
theorem claim_C2_cash_conservation (df out : List Row) (ts : List Trade)
    (hcents : ∃ n : ℤ, (extractCash df).1 * 100 = (n : ℚ))
    (hnr : ∀ t ∈ ts, lower t.action ≠ "remove")
    (hok : update_portfolio df ts = .ok out) :
    out.getLast? = some (cashRow ((extractCash df).1 - sumBuy ts + sumSell ts)) := by
  obtain ⟨n, hn⟩ := hcents
  obtain ⟨n1, hn1⟩ := sumSell_cents ts
  obtain ⟨n2, hn2⟩ := sumBuy_cents ts
  unfold update_portfolio at hok
  rcases hq : applyTrades (extractCash df) ts with e | st
  · rw [hq] at hok
    exact absurd hok (by simp)
  · rw [hq] at hok
    simp only [Except.ok.injEq] at hok
    obtain ⟨c', d'⟩ := st
    have hc' : c' = (extractCash df).1 + sumSell ts - sumBuy ts := by
      apply applyTrades_cash ts (extractCash df).1 (extractCash df).2 c' d'
      rw [Prod.mk.eta]
      exact hq
    have hr2 : round2 c' = c' := by
      apply round2_eq_self c' (n + n1 - n2)
      rw [hc']
      push_cast
      rw [sub_mul, add_mul, hn, hn1, hn2]
    rw [← hok, List.map_append]
    simp only [List.map_cons, List.map_nil]
    rw [List.getLast?_concat, roundRowCols_cashRow, round2_round2, hr2, hc']
    have harr : (extractCash df).1 + sumSell ts - sumBuy ts =
        (extractCash df).1 - sumBuy ts + sumSell ts := by ring
    rw [harr]

/-- C2 (witness): one sell of 30 against a snapshot holding 100 in cash
leaves 130 in the Cash row. -/
theorem claim_C2_witness :
    ([cashRow 130] : List Row).getLast? =
      some (cashRow ((extractCash [cashRow 100]).1 -
        sumBuy [⟨"Y", "sell", 1, 30⟩] + sumSell [⟨"Y", "sell", 1, 30⟩])) := by
  have h30 : round2 (30 : ℚ) = 30 := round2_eq_self 30 3000 (by norm_num)
  have h130 : round2 (130 : ℚ) = 130 := round2_eq_self 130 13000 (by norm_num)
  have hsell : lower "sell" = "sell" := by decide
  refine claim_C2_cash_conservation [cashRow 100] [cashRow 130] [⟨"Y", "sell", 1, 30⟩]
    ⟨10000, by simp [extractCash, cashRow]; norm_num⟩
    (by intro t ht; simp at ht; subst ht; decide)
    ?_
  simp [update_portfolio, applyTrades, applyTrade, extractCash, cashRow, roundRowCols,
    hsell, h30, h130, round2_zero, round2_round2]
  norm_num [h130]

/-- C4: a sell always credits cash with the rounded amount; with no
matching row the holdings are untouched; with a matching row and
`units - shares <= 0` the row is deleted outright; with `units - shares > 0`
the row is updated in place by the spec's sell formulas; and a sell never
introduces a negative unit count. -/
theorem claim_C4_sell_semantics (c : ℚ) (df : List Row) (t : Trade)
    (h : lower t.action = "sell") :
    (df.find? (fun x => x.holdingName == t.symbol) = none →
      applyTrade (c, df) t = .ok (c + round2 t.amount, df)) ∧
    (∀ r, df.find? (fun x => x.holdingName == t.symbol) = some r → r.units - t.shares ≤ 0 →
      applyTrade (c, df) t = .ok (c + round2 t.amount, removeFirst df t.symbol)) ∧
    (∀ r, df.find? (fun x => x.holdingName == t.symbol) = some r → 0 < r.units - t.shares →
      applyTrade (c, df) t =
        .ok (c + round2 t.amount, updateRow df t.symbol (fun _ => specSellRow r t))) ∧
    ((∀ x ∈ df, 0 ≤ x.units) → ∀ c' d', applyTrade (c, df) t = .ok (c', d') →
      ∀ x ∈ d', 0 ≤ x.units) := by
  refine ⟨?_, ?_, ?_, ?_⟩
  · intro hn
    rw [applyTrade_sell c df t h]
    simp only [hn]
  · intro r hf hle
    rw [applyTrade_sell c df t h]
    simp only [hf]
    rw [if_neg (not_lt.mpr hle)]
  · intro r hf hgt
    rw [applyTrade_sell c df t h]
    simp only [hf]
    rw [if_pos hgt]
    congr 2
    exact updateRow_congr _ _ hf (by simp [specSellRow])
  · intro hnn c' d' happ x hx
    rw [applyTrade_sell c df t h] at happ
    split at happ
    · simp only [Except.ok.injEq, Prod.mk.injEq] at happ
      rw [← happ.2] at hx
      exact hnn x hx
    · rename_i r hf
      split at happ
      · rename_i hgt
        simp only [Except.ok.injEq, Prod.mk.injEq] at happ
        rw [← happ.2] at hx
        rcases mem_updateRow hx with hm | ⟨y, _, rfl⟩
        · exact hnn x hm
        · simpa using le_of_lt hgt
      · simp only [Except.ok.injEq, Prod.mk.injEq] at happ
        rw [← happ.2] at hx
        exact hnn x (mem_removeFirst hx)

/-- C4 (witness): a sell of an absent symbol still credits cash and leaves
the holdings unchanged. -/
theorem claim_C4_witness :
    lower "sell" = "sell" ∧
    applyTrade (0, []) ⟨"GME", "sell", 1, 50⟩ = .ok (0 + round2 50, []) :=
  ⟨by decide, (claim_C4_sell_semantics 0 [] ⟨"GME", "sell", 1, 50⟩ (by decide)).1 (by simp)⟩

/-- C7 (counterexample): a buy with `shares = 0` for an absent symbol
creates a zero-unit row, so the output carries a non-Cash row whose unit
count is not strictly positive, refuting the claimed invariant. -/
theorem claim_C7_counterexample :
    update_portfolio [] [⟨"X", "buy", 0, 0⟩] = .ok [⟨"X", 0, 0, 0, 0, 0⟩, cashRow 0] ∧
    ¬ (0 : ℚ) < (Row.mk "X" 0 0 0 0 0).units := by
  constructor
  · have hbuy : lower (Trade.mk "X" "buy" 0 0).action = "buy" := by decide
    have hec : extractCash [] = (0, []) := by simp [extractCash]
    have hstep : applyTrade (0, []) (Trade.mk "X" "buy" 0 0) =
        .ok (0, [⟨"X", 0, 0, 0, 0, 0⟩]) := by
      rw [applyTrade_buy _ _ _ hbuy]
      simp [round2_zero]
    unfold update_portfolio
    rw [hec]
    simp only [applyTrades, hstep]
    simp [roundRowCols, cashRow, round2_zero]
  · norm_num

/-- C7 (amended): if every row of the prior snapshot has strictly positive
units and every buy trade carries strictly positive shares, then every row
of the output snapshot (the Cash row included) has strictly positive
units. -/
theorem claim_C7_positive_units (df : List Row) (ts : List Trade) (out : List Row)
    (hdf : ∀ r ∈ df, 0 < r.units)
    (hts : ∀ t ∈ ts, lower t.action = "buy" → 0 < t.shares)
    (hok : update_portfolio df ts = .ok out) :
    ∀ r ∈ out, 0 < r.units := by
  unfold update_portfolio at hok
  rcases hq : applyTrades (extractCash df) ts with e | st
  · rw [hq] at hok
    exact absurd hok (by simp)
  · rw [hq] at hok
    simp only [Except.ok.injEq] at hok
    obtain ⟨c', d'⟩ := st
    have hd0 : ∀ r ∈ (extractCash df).2, 0 < r.units := by
      rw [extractCash_snd]
      intro r hr
      exact hdf r (List.mem_of_mem_filter hr)
    have hd' := applyTrades_units_pos ts (extractCash df).1 (extractCash df).2 c' d' hd0 hts
      (by rw [Prod.mk.eta]; exact hq)
    intro r hr
    rw [← hok] at hr
    rcases List.mem_map.mp hr with ⟨y, hy, rfl⟩
    have hyu : 0 < y.units := by
      rcases List.mem_append.mp hy with hmem | hmem
      · exact hd' y hmem
      · simp only [List.mem_singleton] at hmem
        subst hmem
        norm_num [cashRow]
    simpa [roundRowCols] using hyu

/-- C7 (witness): the amended theorem at a one-buy trade list on an empty
snapshot. -/
theorem claim_C7_witness : (0 : ℚ) < (Row.mk "X" 100 100 1 100 0).units := by
  refine claim_C7_positive_units [] [⟨"X", "buy", 1, 100⟩]
    [⟨"X", 100, 100, 1, 100, 0⟩, cashRow (-100)] ?_ ?_ buy_example_eval
    ⟨"X", 100, 100, 1, 100, 0⟩ (by simp)
  · intro r hr
    simp at hr
  · intro t ht
    simp only [List.mem_singleton] at ht
    subst ht
    intro _
    norm_num

/-- C8: the weighted-average division `(old_cost + amount) / new_units` in
the buy branch is unguarded — a buy on an existing row with
`old_units + shares = 0` reaches the zero denominator — and the branch
succeeds whenever `new_units > 0`. -/
theorem claim_C8_div_by_zero_hazard :
    applyTrade (0, [⟨"Z", 10, 10, 0, 0, 0⟩]) ⟨"Z", "buy", 0, 0⟩ =
      .error "ZeroDivisionError" ∧
    (∀ (c : ℚ) (df : List Row) (t : Trade) (r : Row), lower t.action = "buy" →
      df.find? (fun x => x.holdingName == t.symbol) = some r →
      0 < r.units + t.shares → (applyTrade (c, df) t).isOk = true) := by
  constructor
  · have hbuy : lower "buy" = "buy" := by decide
    rw [applyTrade_buy _ _ _ hbuy]
    simp
  · intro c df t r hb hf hpos
    rw [applyTrade_buy c df t hb]
    simp only [hf]
    rw [if_neg (ne_of_gt hpos)]
    rfl

/-- C8 (witness): a buy on an existing positive position succeeds. -/
theorem claim_C8_witness :
    (applyTrade (0, [⟨"W", 5, 5, 5, 25, 0⟩]) ⟨"W", "buy", 5, 30⟩).isOk = true :=
  (claim_C8_div_by_zero_hazard).2 0 [⟨"W", 5, 5, 5, 25, 0⟩] ⟨"W", "buy", 5, 30⟩
    ⟨"W", 5, 5, 5, 25, 0⟩ (by decide) (by simp) (by norm_num)

/-- C10: a buy debits cash by its full rounded amount with no balance
check, and a single 100 buy against an empty snapshot (cash 0) leaves a
negative Cash row. -/
theorem claim_C10_no_balance_check :
    (∀ (c : ℚ) (df : List Row) (t : Trade) (c' : ℚ) (d' : List Row),
      lower t.action = "buy" → applyTrade (c, df) t = .ok (c', d') →
      c' = c - round2 t.amount) ∧
    update_portfolio [] [⟨"X", "buy", 1, 100⟩] =
      .ok [⟨"X", 100, 100, 1, 100, 0⟩, cashRow (-100)] ∧
    (-100 : ℚ) < 0 := by
  refine ⟨?_, buy_example_eval, by norm_num⟩
  intro c df t c' d' hb happ
  have hc := applyTrade_cash c df t c' d' happ
  rw [hc]
  simp [hb]

/-- C10 (witness): the unconditional debit applied at a concrete buy. -/
theorem claim_C10_witness : lower "buy" = "buy" ∧ (-100 : ℚ) = 0 - round2 100 :=
  ⟨by decide, (claim_C10_no_balance_check).1 0 [] ⟨"X", "buy", 1, 100⟩ (-100)
    [⟨"X", 100, 100, 1, 100, 0⟩] (by decide) buy_trade_eval⟩

/-- C5 (counterexample): a payload carrying both a `choices` content and a
`text` field is parsed from the `choices` content, not from `text` — with
the identity parser the result is the choices string, refuting the claimed
text-first precedence. -/
theorem claim_C5_counterexample :
    extract_inner_json (fun s => (some s : Option String)) ⟨some "A", some "B"⟩ = .ok "A" ∧
    (Except.ok "A" : Except String String) ≠ .ok "B" := by
  constructor
  · simp [extract_inner_json]
  · simp

/-- C5 (amended): the payload shapes are tried with `choices[0].message.content`
FIRST — whenever that content is present and truthy the `text` field is
ignored — and a payload with neither field fails with the
unrecognized-structure error. -/
theorem claim_C5_choices_first {α : Type} (loads : String → Option α) (p : Payload) :
    (∀ c v, p.choicesContent = some c → c ≠ "" → loads c = some v →
      extract_inner_json loads p = .ok v) ∧
    (∀ c, p.choicesContent = some c → c ≠ "" →
      extract_inner_json loads p = extract_inner_json loads ⟨some c, none⟩) ∧
    (p.choicesContent = none → p.text = none →
      extract_inner_json loads p =
        .error "Unrecognized JSON structure (neither OpenAI nor Gemini).") := by
  refine ⟨?_, ?_, ?_⟩
  · intro c v hc hne hl
    simp only [extract_inner_json, hc]
    rw [if_neg hne]
    simp only [hl]
  · intro c hc hne
    simp only [extract_inner_json, hc]
    rw [if_neg hne, if_neg hne]
  · intro hc ht
    simp only [extract_inner_json, hc, extractFromText, ht]

/-- C5 (witness): the amended theorem at a concrete two-field payload with
the identity parser. -/
theorem claim_C5_witness :
    ("A" : String) ≠ "" ∧
    extract_inner_json (fun s => (some s : Option String)) ⟨some "A", some "C"⟩ = .ok "A" :=
  ⟨by decide, (claim_C5_choices_first (fun s => some s) ⟨some "A", some "C"⟩).1 "A" "A"
    rfl (by decide) rfl⟩
